import Mathlib

/-!
Verification of the benchmark ingestion and aggregation pipeline of
`src/benchmarks_analysis.py` (class `BenchmarksAnalysis`) and of the variant
entry point `src/performance_plots.py`.

The Python code is shallowly embedded: the results directory is a list of
file names, JSON result files are structured values, pandas data frames are
lists of records, floating point statistics are modelled as rationals, and
fallible Python operations return `Except PyErr`. String primitives
(`split`, `startswith`, `endswith`, `int(...)`) are modelled by structural
recursion on the character list so that they evaluate inside the kernel.
-/

namespace PuremSandbox

/-- Python exceptions that the embedded fragment can raise. -/
inductive PyErr where
  | fileNotFound (msg : String)
  | indexError
  | valueError
  | assertionError (msg : String)
  | typeError (msg : String)
deriving DecidableEq, Repr

instance {ε α : Type} [DecidableEq ε] [DecidableEq α] : DecidableEq (Except ε α) := by
  intro a b
  cases a <;> cases b
  case error.error x y =>
    exact if h : x = y then .isTrue (by rw [h]) else .isFalse (by intro hc; cases hc; exact h rfl)
  case ok.ok x y =>
    exact if h : x = y then .isTrue (by rw [h]) else .isFalse (by intro hc; cases hc; exact h rfl)
  case error.ok x y => exact .isFalse (by intro hc; cases hc)
  case ok.error x y => exact .isFalse (by intro hc; cases hc)

/-- Python list indexing `l[i]` for a non-negative index: raises `IndexError`
when the index is out of range. -/
def pyIndex {α : Type} (l : List α) (i : Nat) : Except PyErr α :=
  match l.get? i with
  | some x => .ok x
  | none => .error .indexError

/-- Python `s.split(sep)` for a single-character separator, on the character
list: splitting the empty string gives `[[]]`, and separators at the ends
produce empty fields, exactly as in Python. -/
def splitOnChar (sep : Char) : List Char → List (List Char)
  | [] => [[]]
  | c :: cs =>
    let r := splitOnChar sep cs
    if c = sep then [] :: r
    else
      match r with
      | [] => [[c]]
      | t :: ts => (c :: t) :: ts

/-- Python `s.split(sep)` for a single-character separator (the code only
splits on `"_"` and `"."`). -/
def pySplit (sep : Char) (s : String) : List String :=
  (splitOnChar sep s.data).map String.mk

/-- Python `s.startswith(p)`. -/
def pyStartsWith (s p : String) : Bool := p.data.isPrefixOf s.data

/-- Python `s.endswith(p)`. -/
def pyEndsWith (s p : String) : Bool := p.data.reverse.isPrefixOf s.data.reverse

/-- Value of a list of decimal digit characters, or `none` on a non-digit. -/
def decDigitsVal (acc : Nat) : List Char → Option Nat
  | [] => some acc
  | c :: cs => if c.isDigit then decDigitsVal (acc * 10 + (c.toNat - 48)) cs else none

/-- Python `int(s)` on a decimal string: an optional minus sign followed by
at least one digit; anything else raises `ValueError`. -/
def pyInt (s : String) : Except PyErr Int :=
  match s.data with
  | [] => .error .valueError
  | '-' :: rest =>
    match rest, decDigitsVal 0 rest with
    | _ :: _, some n => .ok (-(n : Int))
    | _, _ => .error .valueError
  | l =>
    match decDigitsVal 0 l with
    | some n => .ok (Int.ofNat n)
    | none => .error .valueError

/-- Python `str.zfill(4)`: left-pad with zeros to width 4 (the embedded
identifiers are non-negative, so no sign handling is needed). -/
def zfill4 (s : String) : String :=
  if 4 ≤ s.length then s else String.mk (List.replicate (4 - s.length) '0') ++ s

/-- Python substring containment `sub in s`. -/
def containsSub (s sub : String) : Bool :=
  (List.range (s.data.length + 1)).any (fun i => (s.data.drop i).take sub.data.length == sub.data)

/-- The hard-coded results directory `.benchmarks/Darwin-CPython-3.11-64bit`
of `load_benchmarks_files`. -/
def benchmarks_dir : String := ".benchmarks/Darwin-CPython-3.11-64bit"

/-- Python `os.path.join` for the one shape used by the code. -/
def os_path_join (dir f : String) : String := dir ++ "/" ++ f

/-- The prefix `str(self.test_number).zfill(4)` searched by the Locator. -/
def search_pattern (test_number : Nat) : String := zfill4 (toString test_number)

/-- Phase one of `load_benchmarks_files`: the files in the directory listing
that start with the padded identifier and end in `.json`. -/
def matched_files (test_number : Nat) (listing : List String) : List String :=
  listing.filter (fun f => pyStartsWith f (search_pattern test_number) && pyEndsWith f ".json")

/-- The run-stamp token of a filename: the third underscore-delimited token,
`f.split("_")[2]` (defaulting to `""` where Python would raise). -/
def stampTok (f : String) : String := (pySplit '_' f).getD 2 ""

/-- Phase two of `load_benchmarks_files`: the list comprehension
`[os.path.join(dir, f) for f in listdir if f.split("_")[2] == file_stamp and f.endswith(".json")]`.
Python evaluates `f.split("_")[2]` before the extension check, so every
listed file is indexed, whether or not it ends in `.json`. -/
def select_same_stamp (file_stamp : String) : List String → Except PyErr (List String)
  | [] => .ok []
  | f :: rest => do
    let tok ← pyIndex (pySplit '_' f) 2
    let tail ← select_same_stamp file_stamp rest
    if tok == file_stamp && pyEndsWith f ".json" then
      .ok (os_path_join benchmarks_dir f :: tail)
    else
      .ok tail

/-- The "not found" message of `load_benchmarks_files`. -/
def not_found_msg (test_number : Nat) : String :=
  "No benchmark files found starting with " ++ search_pattern test_number ++
    " in " ++ benchmarks_dir

/-- `BenchmarksAnalysis.load_benchmarks_files`, over an explicit directory
listing: filter by padded-identifier prefix and `.json` suffix, fail with
`FileNotFoundError` when nothing matches, otherwise read the run stamp of the
first match (`matched_files[0].split("_")[2]`) and return every listed file
sharing that stamp token and extension. -/
def load_benchmarks_files (test_number : Nat) (listing : List String) :
    Except PyErr (List String) :=
  match matched_files test_number listing with
  | [] => .error (.fileNotFound (not_found_msg test_number))
  | first :: _ => do
    let file_stamp ← pyIndex (pySplit '_' first) 2
    select_same_stamp file_stamp listing


/-- Statistics block of one benchmark entry (`entry["stats"]`). The Python
floats are modelled as rationals. -/
structure Stats where
  min : Rat
  max : Rat
  mean : Rat
  stddev : Rat
  ops : Rat
deriving DecidableEq, Repr

/-- One entry of the `"benchmarks"` list inside a result file:
`entry["params"]["func_name"]` and `entry["stats"]`. -/
structure BenchEntry where
  func_name : String
  stats : Stats
deriving DecidableEq, Repr

/-- A located result file: its path together with its parsed JSON content
(the `"benchmarks"` list). -/
structure ResultFile where
  path : String
  benchmarks : List BenchEntry
deriving DecidableEq, Repr

/-- One row of the aggregated table built by `benchmarks_data_frame`. -/
structure BenchmarkRecord where
  size : Int
  func : String
  min : Rat
  max : Rat
  mean : Rat
  stddev : Rat
  ops : Rat
deriving DecidableEq, Repr

/-- `BenchmarksAnalysis.extract_size_from_filepath`:
`int(filepath.split("_")[-1].split(".")[0])`. Both `split` results are
always non-empty, so the Python `[-1]` and `[0]` never raise; only `int`
can fail. -/
def extract_size_from_filepath (filepath : String) : Except PyErr Int :=
  pyInt ((pySplit '.' ((pySplit '_' filepath).getLastD "")).headD "")

/-- The inner loop of `benchmarks_data_frame`: one `BenchmarkRecord` per
entry of `data["benchmarks"]`, with `size` re-extracted from the file path
for every entry. -/
def recordsOfEntries (path : String) : List BenchEntry → Except PyErr (List BenchmarkRecord)
  | [] => .ok []
  | entry :: rest => do
    let size ← extract_size_from_filepath path
    let tail ← recordsOfEntries path rest
    .ok ({ size := size, func := entry.func_name, min := entry.stats.min,
           max := entry.stats.max, mean := entry.stats.mean,
           stddev := entry.stats.stddev, ops := entry.stats.ops } :: tail)

/-- `BenchmarksAnalysis.benchmarks_data_frame`, over the located files with
their parsed contents: the records of every file, concatenated in
file-then-entry discovery order. -/
def benchmarks_data_frame : List ResultFile → Except PyErr (List BenchmarkRecord)
  | [] => .ok []
  | file :: rest => do
    let recs ← recordsOfEntries file.path file.benchmarks
    let tail ← benchmarks_data_frame rest
    .ok (recs ++ tail)

/-- Ordering of rows by the `size` column, as used by `sort_values("size")`. -/
def sizeLE (a b : BenchmarkRecord) : Prop := a.size ≤ b.size

instance : DecidableRel sizeLE := fun a b => Int.decLe a.size b.size

instance : IsTotal BenchmarkRecord sizeLE := ⟨fun a b => Int.le_total a.size b.size⟩

instance : IsTrans BenchmarkRecord sizeLE := ⟨fun _ _ _ h1 h2 => le_trans h1 h2⟩

/-- Pandas `df.sort_values("size")`: sort rows by size ascending. -/
def sortBySize (l : List BenchmarkRecord) : List BenchmarkRecord :=
  List.insertionSort sizeLE l

/-- NumPy `np.intersect1d`: the sorted list of the distinct values present
in both inputs. -/
def intersect1d (xs ys : List Int) : List Int :=
  List.insertionSort (fun a b => a ≤ b) ((xs.filter (fun x => ys.contains x)).dedup)

/-- NumPy element-wise division of two 1-d arrays, with scalar broadcasting;
mismatched lengths raise. -/
def npDiv (a b : List Rat) : Except PyErr (List Rat) :=
  if a.length = b.length then .ok (List.zipWith (fun x y => x / y) a b)
  else if b.length = 1 then .ok (a.map (fun x => x / b.headD 0))
  else if a.length = 1 then .ok (b.map (fun y => a.headD 0 / y))
  else .error .valueError

/-- Model of `scipy.signal.savgol_filter(y, window_length=5, polyorder=2)`
with the default `mode="interp"`, over exact rationals, for inputs of length
at least 5 (the only lengths on which the code invokes it): interior points
are the least-squares quadratic fit over the centred 5-point window
(coefficients (-3, 12, 17, 12, -3)/35), and the first and last two points
evaluate the quadratic fitted to the first and last 5 points. -/
def savgol_filter_5_2 (y : List Rat) : List Rat :=
  let n := y.length
  if n < 5 then y
  else
    let g : Nat → Rat := fun i => y.getD i 0
    (List.range n).map (fun i =>
      if i = 0 then (31 * g 0 + 9 * g 1 - 3 * g 2 - 5 * g 3 + 3 * g 4) / 35
      else if i = 1 then (9 * g 0 + 13 * g 1 + 12 * g 2 + 6 * g 3 - 5 * g 4) / 35
      else if i = n - 2 then
        (-5 * g (n-5) + 6 * g (n-4) + 12 * g (n-3) + 13 * g (n-2) + 9 * g (n-1)) / 35
      else if i = n - 1 then
        (3 * g (n-5) - 5 * g (n-4) - 3 * g (n-3) + 9 * g (n-2) + 31 * g (n-1)) / 35
      else (-3 * g (i-2) + 12 * g (i-1) + 17 * g i + 12 * g (i+1) - 3 * g (i+2)) / 35)

/-- The SciPy filter as the pipeline calls it: a total model, so it returns
`.ok`. The pipeline definitions stay parametric in this function because the
code wraps the call in `try/except`. -/
def scipy_savgol (y : List Rat) : Except PyErr (List Rat) := .ok (savgol_filter_5_2 y)

/-- The smoothing step of `acceleration_plot`: apply the filter when at
least 5 points exist, otherwise keep the sequence; if the filter raises,
warn (second component `true`) and fall back to the unsmoothed sequence. -/
def smooth_acceleration (sg : List Rat → Except PyErr (List Rat)) (acceleration : List Rat) :
    List Rat × Bool :=
  if 5 ≤ acceleration.length then
    match sg acceleration with
    | .ok s => (s, false)
    | .error _ => (acceleration, true)
  else (acceleration, false)

/-- One plotted acceleration series: competitor name, the common sizes on
the x axis, the raw ratio sequence, the plotted (smoothed) sequence, and
whether the smoothing fallback warning fired. -/
structure AccelSeries where
  func : String
  sizes : List Int
  accel : List Rat
  accel_smooth : List Rat
  warned : Bool
deriving DecidableEq, Repr

/-- The local `df_purem` of `acceleration_plot`:
`df[df["func"].str.contains("Purem")].sort_values("size")`. -/
def df_purem (df : List BenchmarkRecord) : List BenchmarkRecord :=
  sortBySize (df.filter (fun r => containsSub r.func "Purem"))

/-- The local `df_other` of the loop body:
`df[df["func"] == func_name].sort_values("size")`. -/
def df_other (df : List BenchmarkRecord) (func_name : String) : List BenchmarkRecord :=
  sortBySize (df.filter (fun r => r.func == func_name))

/-- The local `common_sizes` of the loop body:
`np.intersect1d(df_purem["size"], df_other["size"])`. -/
def common_sizes (df_purem df : List BenchmarkRecord) (func_name : String) : List Int :=
  intersect1d (df_purem.map (fun r => r.size)) ((df_other df func_name).map (fun r => r.size))

/-- The local `purem_ops` of the loop body:
`df_purem[df_purem["size"].isin(common_sizes)]["ops"].values`. -/
def purem_ops (df_purem df : List BenchmarkRecord) (func_name : String) : List Rat :=
  (df_purem.filter (fun r => (common_sizes df_purem df func_name).contains r.size)).map
    (fun r => r.ops)

/-- The local `other_ops` of the loop body:
`df_other[df_other["size"].isin(common_sizes)]["ops"].values`. -/
def other_ops (df_purem df : List BenchmarkRecord) (func_name : String) : List Rat :=
  ((df_other df func_name).filter (fun r => (common_sizes df_purem df func_name).contains r.size)).map
    (fun r => r.ops)

/-- The body of the `for func_name in func_names` loop of
`acceleration_plot` for one competitor: `none` means no series is plotted
(empty size intersection). `plt.plot` raises when the x and y sequences
have different lengths, which the final guard models. -/
def competitor_series (sg : List Rat → Except PyErr (List Rat))
    (df_purem df : List BenchmarkRecord) (func_name : String) :
    Except PyErr (Option AccelSeries) :=
  if (common_sizes df_purem df func_name).isEmpty then .ok none
  else
    match npDiv (purem_ops df_purem df func_name) (other_ops df_purem df func_name) with
    | .error e => .error e
    | .ok acceleration =>
      let sm := smooth_acceleration sg acceleration
      if (common_sizes df_purem df func_name).length = sm.fst.length then
        .ok (some { func := func_name, sizes := common_sizes df_purem df func_name,
                    accel := acceleration, accel_smooth := sm.fst, warned := sm.snd })
      else .error .valueError

/-- Worker for `uniqueList`, carrying the values already seen. -/
def uniqueAux (seen : List String) : List String → List String
  | [] => []
  | x :: xs => if seen.contains x then uniqueAux seen xs else x :: uniqueAux (x :: seen) xs

/-- Pandas `df["func"].unique()`: distinct values in first-occurrence order. -/
def uniqueList (l : List String) : List String := uniqueAux [] l

/-- The competitor loop of `acceleration_plot`: skip baseline names, plot
each competitor series in order. -/
def accel_loop (sg : List Rat → Except PyErr (List Rat))
    (df_purem df : List BenchmarkRecord) : List String → Except PyErr (List AccelSeries)
  | [] => .ok []
  | g :: rest =>
    if containsSub g "Purem" then accel_loop sg df_purem df rest
    else do
      let s ← competitor_series sg df_purem df g
      let tail ← accel_loop sg df_purem df rest
      match s with
      | some a => .ok (a :: tail)
      | none => .ok tail

/-- `BenchmarksAnalysis.acceleration_plot`, returning the plotted series:
assert that some function name contains `"Purem"`, take the baseline rows
(every row whose name contains `"Purem"`, sorted by size), and emit one
series per non-baseline function name with a non-empty size intersection. -/
def acceleration_plot (sg : List Rat → Except PyErr (List Rat))
    (df : List BenchmarkRecord) : Except PyErr (List AccelSeries) :=
  let func_names := uniqueList (df.map (fun r => r.func))
  if func_names.any (fun name => containsSub name "Purem") then
    accel_loop sg (df_purem df) df func_names
  else .error (.assertionError "Purem is missed!")

/-- `BenchmarksAnalysis.__init__(self, test_id)`: Python checks the arity of
the call before running the body; the one-parameter signature makes any
two-argument call `BenchmarksAnalysis(test_id, platform)` raise `TypeError`.
The body stores `int(test_id)` (the directory setup side effect is out of
scope). -/
def BenchmarksAnalysis_init (args : List String) : Except PyErr Int :=
  match args with
  | [test_id] => pyInt test_id
  | _ => .error (.typeError "BenchmarksAnalysis.__init__ takes 2 positional arguments but 3 were given")

/-- The `__main__` block of `src/performance_plots.py`:
`test_id = sys.argv[1]; platform = sys.argv[2];
BenchmarksAnalysis(test_id, platform).run()`. The result is the constructor
outcome; `run()` is reached only on success. -/
def performance_plots_main (argv : List String) : Except PyErr Int := do
  let test_id ← pyIndex argv 1
  let platform ← pyIndex argv 2
  BenchmarksAnalysis_init [test_id, platform]


/-- Concrete result file used to exercise the pipeline (baseline rows). -/
def demoFile : ResultFile :=
  { path := os_path_join benchmarks_dir "0001_02_stampA_1000.json",
    benchmarks := [{ func_name := "Softmax: Purem",
                     stats := { min := 1, max := 2, mean := 1, stddev := 0, ops := 500 } }] }

/-- Concrete result file used to exercise the pipeline (competitor rows). -/
def demoFile2 : ResultFile :=
  { path := os_path_join benchmarks_dir "0002_02_stampA_2000.json",
    benchmarks := [{ func_name := "Softmax: NumPy",
                     stats := { min := 1, max := 3, mean := 2, stddev := 0, ops := 250 } }] }

/-- A smoothing filter that always raises, to exercise the fallback path. -/
def failing_sg : List Rat → Except PyErr (List Rat) := fun _ => .error .valueError

/-- A concrete baseline row for the spec scenario. -/
def demoBase (size : Int) (ops : Rat) : BenchmarkRecord :=
  { size := size, func := "Softmax: Purem", min := 0, max := 0, mean := 0, stddev := 0,
    ops := ops }

/-- A concrete competitor row for the spec scenario. -/
def demoComp (size : Int) (ops : Rat) : BenchmarkRecord :=
  { size := size, func := "Softmax: NumPy", min := 0, max := 0, mean := 0, stddev := 0,
    ops := ops }

/-- The spec scenario table: baseline ops 500 and 900 at sizes 1000 and 2000,
competitor ops 250 and 300 at the same sizes. -/
def demoDf : List BenchmarkRecord :=
  [demoBase 1000 500, demoBase 2000 900, demoComp 1000 250, demoComp 2000 300]


/-! ## Helper lemmas -/

lemma pyIndex_eq_ok (l : List String) (h : 3 ≤ l.length) : pyIndex l 2 = .ok (l.getD 2 "") := by
  unfold pyIndex
  have h2 : 2 < l.length := by omega
  rw [List.getD_eq_getElem l "" h2]
  rw [List.get?_eq_getElem? l 2, List.getElem?_eq_getElem h2]

lemma pyIndex_eq_err (l : List String) (h : l.length < 3) : pyIndex l 2 = .error .indexError := by
  unfold pyIndex
  rw [List.get?_eq_getElem?, List.getElem?_eq_none (by omega)]

lemma select_same_stamp_err (st : String) (l : List String)
    (hbad : ∃ f ∈ l, (pySplit '_' f).length < 3) :
    select_same_stamp st l = .error .indexError := by
  induction l with
  | nil => simp at hbad
  | cons f rest ih =>
    obtain ⟨g, hg, hglen⟩ := hbad
    rcases List.mem_cons.mp hg with hgf | hgrest
    · subst hgf
      simp [select_same_stamp, pyIndex_eq_err _ hglen, Bind.bind, Except.bind]
    · have htail := ih ⟨g, hgrest, hglen⟩
      simp only [select_same_stamp, Bind.bind, Except.bind]
      cases hg2 : (pySplit '_' f)[2]? with
      | none => simp [pyIndex, hg2]
      | some tok => simp [pyIndex, hg2, htail]

lemma select_same_stamp_ok (st : String) (l : List String)
    (hall : ∀ f ∈ l, 3 ≤ (pySplit '_' f).length) :
    select_same_stamp st l =
      .ok ((l.filter (fun f => stampTok f == st && pyEndsWith f ".json")).map
        (os_path_join benchmarks_dir)) := by
  induction l with
  | nil => simp [select_same_stamp]
  | cons f rest ih =>
    have hf : 3 ≤ (pySplit '_' f).length := hall f (List.mem_cons_self f rest)
    have htail := ih (fun g hg => hall g (List.mem_cons_of_mem f hg))
    simp only [select_same_stamp, Bind.bind, Except.bind, pyIndex_eq_ok _ hf, htail]
    simp only [stampTok, List.filter_cons]
    split <;> rename_i hp <;> simp_all

lemma containsSub_of_data_eq (s sub : String) (a c : List Char)
    (h : s.data = a ++ (sub.data ++ c)) : containsSub s sub = true := by
  unfold containsSub
  rw [List.any_eq_true]
  refine ⟨a.length, ?_, ?_⟩
  · rw [List.mem_range, h]
    simp
    omega
  · rw [h, List.drop_left, List.take_left]
    exact beq_self_eq_true sub.data

/-! ## The Result File Locator -/

/-- C4: for every run identifier with no prefix-and-extension match in the
results directory, the Locator fails with a FileNotFoundError whose message
names the zero-padded identifier and the search directory, and no file list
is returned. -/
theorem locator_not_found (n : Nat) (listing : List String)
    (h : matched_files n listing = []) :
    load_benchmarks_files n listing = .error (.fileNotFound (not_found_msg n)) ∧
    containsSub (not_found_msg n) (search_pattern n) = true ∧
    containsSub (not_found_msg n) benchmarks_dir = true := by
  refine ⟨?_, ?_, ?_⟩
  · unfold load_benchmarks_files
    rw [h]
  · refine containsSub_of_data_eq _ _ ("No benchmark files found starting with ").data
      ((" in " ++ benchmarks_dir).data) ?_
    simp [not_found_msg, search_pattern]
  · refine containsSub_of_data_eq _ _
      ("No benchmark files found starting with " ++ search_pattern n ++ " in ").data [] ?_
    simp [not_found_msg, search_pattern]

theorem locator_not_found_witness :
    matched_files 9999 ["0001_02_stamp_1000.json"] = [] ∧
    (load_benchmarks_files 9999 ["0001_02_stamp_1000.json"] =
        .error (.fileNotFound (not_found_msg 9999)) ∧
      containsSub (not_found_msg 9999) (search_pattern 9999) = true ∧
      containsSub (not_found_msg 9999) benchmarks_dir = true) :=
  ⟨by decide, locator_not_found 9999 ["0001_02_stamp_1000.json"] (by decide)⟩

/-- C10: the Locator reads the run-stamp token `f.split("_")[2]` of every
directory entry before checking the extension, so once the identifier has a
match, a single entry with fewer than three underscore-delimited tokens
(json or not) makes the whole lookup raise IndexError. -/
theorem locator_token_fragility (n : Nat) (listing : List String)
    (hm : matched_files n listing ≠ [])
    (hbad : ∃ f ∈ listing, (pySplit '_' f).length < 3) :
    load_benchmarks_files n listing = .error .indexError := by
  unfold load_benchmarks_files
  cases hmf : matched_files n listing with
  | nil => exact absurd hmf hm
  | cons first rest =>
    simp only [Bind.bind, Except.bind]
    cases hg2 : (pySplit '_' first)[2]? with
    | none => simp [pyIndex, hg2]
    | some tok => simp [pyIndex, hg2, select_same_stamp_err _ _ hbad]

theorem locator_token_fragility_witness :
    matched_files 1 ["0001_02_st_1000.json", "notes"] ≠ [] ∧
    (∃ f ∈ ["0001_02_st_1000.json", "notes"], (pySplit '_' f).length < 3) ∧
    load_benchmarks_files 1 ["0001_02_st_1000.json", "notes"] = .error .indexError :=
  ⟨by decide, by decide,
    locator_token_fragility 1 ["0001_02_st_1000.json", "notes"] (by decide) (by decide)⟩

/-- C2 (amended): when some directory entry matches the padded identifier
and the extension, and additionally every directory entry has at least three
underscore-delimited tokens, the Locator returns exactly the entries whose
run-stamp token equals that of the first match and that end in `.json`
(prefix or not); the list is non-empty and every returned file shares the
stamp token. Without the added token-count hypothesis the original claim is
false (`locator_returns_stamp_matches_cex`). -/
theorem locator_returns_stamp_matches (n : Nat) (listing : List String)
    (first : String) (rest : List String)
    (hm : matched_files n listing = first :: rest)
    (hall : ∀ f ∈ listing, 3 ≤ (pySplit '_' f).length) :
    load_benchmarks_files n listing =
      .ok ((listing.filter (fun f => stampTok f == stampTok first && pyEndsWith f ".json")).map
        (os_path_join benchmarks_dir)) ∧
    (listing.filter (fun f => stampTok f == stampTok first && pyEndsWith f ".json")).map
        (os_path_join benchmarks_dir) ≠ [] ∧
    ∀ p ∈ (listing.filter (fun f => stampTok f == stampTok first && pyEndsWith f ".json")).map
        (os_path_join benchmarks_dir),
      ∃ f ∈ listing, p = os_path_join benchmarks_dir f ∧ stampTok f = stampTok first ∧
        pyEndsWith f ".json" = true := by
  have hfm : first ∈ matched_files n listing := by rw [hm]; exact List.mem_cons_self first rest
  have hfl : first ∈ listing := List.mem_of_mem_filter hfm
  have hfcond := List.of_mem_filter hfm
  have hfend : pyEndsWith first ".json" = true := (Bool.and_eq_true _ _ |>.mp hfcond).2
  have hffilter : first ∈ listing.filter
      (fun f => stampTok f == stampTok first && pyEndsWith f ".json") := by
    rw [List.mem_filter]
    exact ⟨hfl, by simp [hfend]⟩
  refine ⟨?_, ?_, ?_⟩
  · unfold load_benchmarks_files
    rw [hm]
    have hlen := hall first hfl
    simp only [Bind.bind, Except.bind, pyIndex_eq_ok _ hlen]
    have hst : (pySplit '_' first).getD 2 "" = stampTok first := rfl
    rw [hst, select_same_stamp_ok _ _ hall]
  · intro hnil
    rw [List.map_eq_nil_iff] at hnil
    rw [hnil] at hffilter
    exact List.not_mem_nil first hffilter
  · intro p hp
    obtain ⟨f, hf, hpf⟩ := List.mem_map.mp hp
    obtain ⟨hfl2, hcond⟩ := List.mem_filter.mp hf
    obtain ⟨h1, h2⟩ := Bool.and_eq_true _ _ |>.mp hcond
    exact ⟨f, hfl2, hpf.symm, by simpa using h1, h2⟩

theorem locator_returns_stamp_matches_cex :
    matched_files 1 ["0001.json"] ≠ [] ∧
    load_benchmarks_files 1 ["0001.json"] = .error .indexError := by decide

theorem locator_returns_stamp_matches_witness :
    matched_files 1 ["0001_02_stampA_1000.json", "0002_02_stampA_2000.json",
        "0003_02_stampB_500.json"] =
      "0001_02_stampA_1000.json" :: [] ∧
    (∀ f ∈ ["0001_02_stampA_1000.json", "0002_02_stampA_2000.json", "0003_02_stampB_500.json"],
      3 ≤ (pySplit '_' f).length) ∧
    (load_benchmarks_files 1 ["0001_02_stampA_1000.json", "0002_02_stampA_2000.json",
        "0003_02_stampB_500.json"] =
      .ok ((["0001_02_stampA_1000.json", "0002_02_stampA_2000.json",
          "0003_02_stampB_500.json"].filter
          (fun f => stampTok f == stampTok "0001_02_stampA_1000.json" && pyEndsWith f ".json")).map
        (os_path_join benchmarks_dir)) ∧
      (["0001_02_stampA_1000.json", "0002_02_stampA_2000.json", "0003_02_stampB_500.json"].filter
          (fun f => stampTok f == stampTok "0001_02_stampA_1000.json" && pyEndsWith f ".json")).map
        (os_path_join benchmarks_dir) ≠ [] ∧
      ∀ p ∈ (["0001_02_stampA_1000.json", "0002_02_stampA_2000.json",
          "0003_02_stampB_500.json"].filter
          (fun f => stampTok f == stampTok "0001_02_stampA_1000.json" && pyEndsWith f ".json")).map
        (os_path_join benchmarks_dir),
        ∃ f ∈ ["0001_02_stampA_1000.json", "0002_02_stampA_2000.json", "0003_02_stampB_500.json"],
          p = os_path_join benchmarks_dir f ∧ stampTok f = stampTok "0001_02_stampA_1000.json" ∧
            pyEndsWith f ".json" = true) :=
  ⟨by decide, by decide,
    locator_returns_stamp_matches 1 _ "0001_02_stampA_1000.json" []
      (by decide) (by decide)⟩

/-! ## The Record Extractor and Aggregator -/

lemma recordsOfEntries_size (path : String) (n : Int)
    (h : extract_size_from_filepath path = .ok n) :
    ∀ es recs, recordsOfEntries path es = .ok recs → ∀ r ∈ recs, r.size = n := by
  intro es
  induction es with
  | nil =>
    intro recs hr r hmem
    simp [recordsOfEntries] at hr
    subst hr
    simp at hmem
  | cons e rest ih =>
    intro recs hr r hmem
    simp only [recordsOfEntries, Bind.bind, Except.bind, h] at hr
    cases ht : recordsOfEntries path rest with
    | error err => rw [ht] at hr; cases hr
    | ok tail =>
      rw [ht] at hr
      simp only [Except.ok.injEq] at hr
      rw [← hr] at hmem
      rcases List.mem_cons.mp hmem with hhead | htail
      · rw [hhead]
      · exact ih tail ht r htail

/-- C5: for every result file whose trailing underscore-delimited token
parses as the integer `n` (the filename grammar), the extracted size is `n`,
and every aggregated row produced from that file carries exactly that
size. -/
theorem extract_size_rows (file : ResultFile) (n : Int)
    (h : pyInt ((pySplit '.' ((pySplit '_' file.path).getLastD "")).headD "") = .ok n) :
    extract_size_from_filepath file.path = .ok n ∧
    ∀ recs, recordsOfEntries file.path file.benchmarks = .ok recs →
      ∀ r ∈ recs, r.size = n := by
  have hx : extract_size_from_filepath file.path = .ok n := h
  exact ⟨hx, fun recs hr r hmem =>
    recordsOfEntries_size file.path n hx file.benchmarks recs hr r hmem⟩

theorem extract_size_rows_witness :
    pyInt ((pySplit '.' ((pySplit '_' demoFile.path).getLastD "")).headD "") = .ok 1000 ∧
    (extract_size_from_filepath demoFile.path = .ok 1000 ∧
      ∀ recs, recordsOfEntries demoFile.path demoFile.benchmarks = .ok recs →
        ∀ r ∈ recs, r.size = 1000) :=
  ⟨by decide, extract_size_rows demoFile 1000 (by decide)⟩

lemma bdf_cons_ok {f : ResultFile} {l : List ResultFile} {r : List BenchmarkRecord} :
    benchmarks_data_frame (f :: l) = .ok r ↔
      ∃ a t, recordsOfEntries f.path f.benchmarks = .ok a ∧
        benchmarks_data_frame l = .ok t ∧ r = a ++ t := by
  constructor
  · intro h
    simp only [benchmarks_data_frame, Bind.bind, Except.bind] at h
    cases ha : recordsOfEntries f.path f.benchmarks with
    | error e => rw [ha] at h; cases h
    | ok a =>
      rw [ha] at h
      cases ht : benchmarks_data_frame l with
      | error e => rw [ht] at h; cases h
      | ok t =>
        rw [ht] at h
        simp only [Except.ok.injEq] at h
        exact ⟨a, t, rfl, rfl, h.symm⟩
  · rintro ⟨a, t, ha, ht, hr⟩
    simp only [benchmarks_data_frame, Bind.bind, Except.bind, ha, ht, hr]

lemma bdf_all_of_ok {files : List ResultFile} {r : List BenchmarkRecord}
    (h : benchmarks_data_frame files = .ok r) :
    ∀ f ∈ files, ∃ a, recordsOfEntries f.path f.benchmarks = .ok a := by
  induction files generalizing r with
  | nil => intro f hf; simp at hf
  | cons g l ih =>
    obtain ⟨a, t, ha, ht, _⟩ := bdf_cons_ok.mp h
    intro f hf
    rcases List.mem_cons.mp hf with hfg | hfl
    · exact ⟨a, hfg ▸ ha⟩
    · exact ih ht f hfl

lemma bdf_isOk_of_all {files : List ResultFile}
    (h : ∀ f ∈ files, ∃ a, recordsOfEntries f.path f.benchmarks = .ok a) :
    ∃ r, benchmarks_data_frame files = .ok r := by
  induction files with
  | nil => exact ⟨[], rfl⟩
  | cons g l ih =>
    obtain ⟨a, ha⟩ := h g (List.mem_cons_self g l)
    obtain ⟨t, ht⟩ := ih (fun f hf => h f (List.mem_cons_of_mem g hf))
    exact ⟨a ++ t, bdf_cons_ok.mpr ⟨a, t, ha, ht, rfl⟩⟩

/-- C8: aggregation is order-independent up to row order: permuting the
input files produces a permutation (same multiset) of the aggregated
rows. -/
theorem aggregation_perm (files1 files2 : List ResultFile)
    (hperm : files1.Perm files2) (r1 r2 : List BenchmarkRecord)
    (h1 : benchmarks_data_frame files1 = .ok r1)
    (h2 : benchmarks_data_frame files2 = .ok r2) :
    r1.Perm r2 := by
  induction hperm generalizing r1 r2 with
  | nil =>
    simp only [benchmarks_data_frame, Except.ok.injEq] at h1 h2
    rw [← h1, ← h2]
  | cons x l12 ih =>
    obtain ⟨a1, t1, ha1, ht1, hr1⟩ := bdf_cons_ok.mp h1
    obtain ⟨a2, t2, ha2, ht2, hr2⟩ := bdf_cons_ok.mp h2
    rw [ha1] at ha2
    injection ha2 with haeq
    rw [hr1, hr2, ← haeq]
    exact (ih t1 t2 ht1 ht2).append_left a1
  | swap x y l =>
    obtain ⟨a1, t1, ha1, ht1, hr1⟩ := bdf_cons_ok.mp h1
    obtain ⟨b1, u1, hb1, hu1, hv1⟩ := bdf_cons_ok.mp ht1
    obtain ⟨b2, t2, hb2, ht2, hr2⟩ := bdf_cons_ok.mp h2
    obtain ⟨a2, u2, ha2, hu2, hv2⟩ := bdf_cons_ok.mp ht2
    rw [ha1] at ha2
    injection ha2 with haeq
    rw [hb1] at hb2
    injection hb2 with hbeq
    rw [hu1] at hu2
    injection hu2 with hueq
    rw [hr1, hv1, hr2, hv2, ← haeq, ← hbeq, ← hueq]
    have h3 := (@List.perm_append_comm _ a1 b1).append_right u1
    rw [List.append_assoc, List.append_assoc] at h3
    exact h3
  | trans p12 p23 ih12 ih23 =>
    rename_i l1 l2 l3
    have hall2 : ∀ f ∈ l2, ∃ a, recordsOfEntries f.path f.benchmarks = .ok a := by
      intro f hf
      exact bdf_all_of_ok h1 f (p12.mem_iff.mpr hf)
    obtain ⟨rmid, hmid⟩ := bdf_isOk_of_all hall2
    exact (ih12 r1 rmid h1 hmid).trans (ih23 rmid r2 hmid h2)

theorem aggregation_perm_witness :
    ([demoFile, demoFile2].Perm [demoFile2, demoFile]) ∧
    ∃ r1 r2, benchmarks_data_frame [demoFile, demoFile2] = .ok r1 ∧
      benchmarks_data_frame [demoFile2, demoFile] = .ok r2 ∧ r1.Perm r2 := by
  refine ⟨by decide, ?_⟩
  cases hr1 : benchmarks_data_frame [demoFile, demoFile2] with
  | error e => cases hr1
  | ok r1 =>
    cases hr2 : benchmarks_data_frame [demoFile2, demoFile] with
    | error e => cases hr2
    | ok r2 => exact ⟨r1, r2, rfl, rfl, aggregation_perm _ _ (by decide) r1 r2 hr1 hr2⟩

/-! ## The variant entry point -/

/-- C9 (amended): any two supplied platform values produce identical
behaviour — the platform value never influences the result, because the
variant entry point passes it to a constructor that accepts only the run
identifier, so every such invocation fails with the same TypeError — but
invoking with no platform value is not equivalent: it fails earlier, with an
IndexError, while reading the missing argument
(`platform_indifference_cex`). -/
theorem platform_indifference (prog tid p1 p2 : String) :
    performance_plots_main [prog, tid, p1] = performance_plots_main [prog, tid, p2] ∧
    performance_plots_main [prog, tid, p1] =
      .error (.typeError
        "BenchmarksAnalysis.__init__ takes 2 positional arguments but 3 were given") :=
  ⟨rfl, rfl⟩

theorem platform_indifference_cex :
    performance_plots_main ["performance_plots.py", "42"] ≠
      performance_plots_main ["performance_plots.py", "42", "macos"] := by decide

/-! ## The smoothing step -/

/-- C7: whenever the smoothing filter raises on a ratio sequence it was
invoked on, the step does not abort: it warns (flag `true`) and uses the
unsmoothed sequence in its place. -/
theorem smoothing_fallback (sg : List Rat → Except PyErr (List Rat)) (accel : List Rat)
    (e : PyErr) (h5 : 5 ≤ accel.length) (hsg : sg accel = .error e) :
    smooth_acceleration sg accel = (accel, true) := by
  unfold smooth_acceleration
  rw [if_pos h5, hsg]

theorem smoothing_fallback_witness :
    5 ≤ ([1, 2, 3, 4, 5] : List Rat).length ∧
    failing_sg [1, 2, 3, 4, 5] = .error .valueError ∧
    smooth_acceleration failing_sg [1, 2, 3, 4, 5] = ([1, 2, 3, 4, 5], true) :=
  ⟨by decide, rfl, smoothing_fallback failing_sg [1, 2, 3, 4, 5] .valueError (by decide) rfl⟩

lemma savgol_length (y : List Rat) : (savgol_filter_5_2 y).length = y.length := by
  unfold savgol_filter_5_2
  by_cases h : y.length < 5
  · simp [h]
  · simp [h]

/-- C6: the smoothing step applies the Savitzky-Golay filter (window 5,
degree 2) exactly when the ratio sequence has at least 5 points, otherwise
leaves it unchanged; the output always has the same length as the input, and
every emitted series has as many smoothed values as sizes. -/
theorem smoothing_shape (accel : List Rat) :
    (5 ≤ accel.length →
      smooth_acceleration scipy_savgol accel = (savgol_filter_5_2 accel, false)) ∧
    (accel.length < 5 → smooth_acceleration scipy_savgol accel = (accel, false)) ∧
    (smooth_acceleration scipy_savgol accel).fst.length = accel.length ∧
    ∀ (sg : List Rat → Except PyErr (List Rat)) (dp df : List BenchmarkRecord) (g : String)
      (s : AccelSeries), competitor_series sg dp df g = .ok (some s) →
        s.sizes.length = s.accel_smooth.length := by
  refine ⟨?_, ?_, ?_, ?_⟩
  · intro h5
    unfold smooth_acceleration
    rw [if_pos h5]
    rfl
  · intro hlt
    unfold smooth_acceleration
    rw [if_neg (by omega)]
  · unfold smooth_acceleration
    by_cases h5 : 5 ≤ accel.length
    · rw [if_pos h5]
      simp [scipy_savgol, savgol_length]
    · rw [if_neg h5]
  · intro sg dp df g s hs
    unfold competitor_series at hs
    split at hs
    · simp at hs
    · cases hnp : npDiv (purem_ops dp df g) (other_ops dp df g) with
      | error e => rw [hnp] at hs; simp at hs
      | ok acc =>
        rw [hnp] at hs
        dsimp only at hs
        by_cases hlen : (common_sizes dp df g).length = (smooth_acceleration sg acc).fst.length
        · rw [if_pos hlen] at hs
          simp only [Except.ok.injEq, Option.some.injEq] at hs
          rw [← hs]
          exact hlen
        · rw [if_neg hlen] at hs
          simp at hs

theorem smoothing_shape_witness :
    smooth_acceleration scipy_savgol [1, 2, 3, 4, 5] =
      (savgol_filter_5_2 [1, 2, 3, 4, 5], false) ∧
    smooth_acceleration scipy_savgol [1, 2] = ([1, 2], false) :=
  ⟨(smoothing_shape [1, 2, 3, 4, 5]).1 (by decide), (smoothing_shape [1, 2]).2.1 (by decide)⟩

/-! ## The baseline assertion -/

lemma mem_uniqueAux (a : String) (l : List String) :
    ∀ seen, a ∈ uniqueAux seen l ↔ a ∈ l ∧ a ∉ seen := by
  induction l with
  | nil => intro seen; simp [uniqueAux]
  | cons x xs ih =>
    intro seen
    by_cases hx : seen.contains x
    · rw [uniqueAux, if_pos hx, ih seen]
      have hxs : x ∈ seen := by simpa using hx
      constructor
      · rintro ⟨h1, h2⟩
        exact ⟨List.mem_cons_of_mem x h1, h2⟩
      · rintro ⟨h1, h2⟩
        rcases List.mem_cons.mp h1 with h3 | h3
        · exact absurd (h3 ▸ hxs) h2
        · exact ⟨h3, h2⟩
    · rw [uniqueAux, if_neg hx]
      have hxs : x ∉ seen := by
        intro hc
        exact hx (by simpa using hc)
      constructor
      · intro h
        rcases List.mem_cons.mp h with h1 | h1
        · exact ⟨h1 ▸ List.mem_cons_self x xs, h1 ▸ hxs⟩
        · obtain ⟨h2, h3⟩ := (ih (x :: seen)).mp h1
          simp only [List.mem_cons] at h3
          push_neg at h3
          exact ⟨List.mem_cons_of_mem x h2, h3.2⟩
      · rintro ⟨h1, h2⟩
        by_cases hax : a = x
        · exact hax ▸ List.mem_cons_self x _
        · rcases List.mem_cons.mp h1 with h3 | h3
          · exact absurd h3 hax
          · refine List.mem_cons_of_mem x ((ih (x :: seen)).mpr ⟨h3, ?_⟩)
            simp only [List.mem_cons]
            push_neg
            exact ⟨hax, h2⟩

lemma mem_uniqueList (a : String) (l : List String) : a ∈ uniqueList l ↔ a ∈ l := by
  rw [uniqueList, mem_uniqueAux]
  simp

lemma uniqueList_any (l : List String) (p : String → Bool) :
    (uniqueList l).any p = l.any p := by
  rw [Bool.eq_iff_iff, List.any_eq_true, List.any_eq_true]
  constructor
  · rintro ⟨x, hx, hp⟩
    exact ⟨x, (mem_uniqueList x l).mp hx, hp⟩
  · rintro ⟨x, hx, hp⟩
    exact ⟨x, (mem_uniqueList x l).mpr hx, hp⟩

lemma npDiv_err {a b : List Rat} {e : PyErr} (h : npDiv a b = .error e) : e = .valueError := by
  unfold npDiv at h
  split at h
  · cases h
  · split at h
    · cases h
    · split at h
      · cases h
      · injection h with h1
        exact h1.symm

lemma competitor_series_err {sg : List Rat → Except PyErr (List Rat)}
    {dp df : List BenchmarkRecord} {g : String} {e : PyErr}
    (h : competitor_series sg dp df g = .error e) : e = .valueError := by
  unfold competitor_series at h
  split at h
  · cases h
  · cases hnp : npDiv (purem_ops dp df g) (other_ops dp df g) with
    | error e2 =>
      rw [hnp] at h
      injection h with h1
      exact h1 ▸ npDiv_err hnp
    | ok acc =>
      rw [hnp] at h
      dsimp only at h
      split at h
      · cases h
      · injection h with h1
        exact h1.symm

lemma accel_loop_no_assert (sg : List Rat → Except PyErr (List Rat))
    (dp df : List BenchmarkRecord) (gs : List String) (m : String) :
    accel_loop sg dp df gs ≠ .error (.assertionError m) := by
  induction gs with
  | nil => simp [accel_loop]
  | cons g rest ih =>
    rw [accel_loop]
    split
    · exact ih
    · intro hc
      simp only [Bind.bind, Except.bind] at hc
      cases hcs : competitor_series sg dp df g with
      | error e =>
        rw [hcs] at hc
        injection hc with h1
        have h2 := competitor_series_err hcs
        rw [h2] at h1
        cases h1
      | ok o =>
        rw [hcs] at hc
        cases ht : accel_loop sg dp df rest with
        | error e =>
          rw [ht] at hc
          cases o <;> simp at hc <;> exact ih (ht.trans (by rw [hc]))
        | ok tail =>
          rw [ht] at hc
          cases o <;> simp at hc

/-- C3: the acceleration computation fails with the assertion error
"Purem is missed!" precisely when no function name in the table contains the
baseline marker "Purem"; when some name does, the assertion passes and the
computation never produces that failure. -/
theorem baseline_assertion (sg : List Rat → Except PyErr (List Rat))
    (df : List BenchmarkRecord) :
    acceleration_plot sg df = .error (.assertionError "Purem is missed!") ↔
      (df.map (fun r => r.func)).any (fun name => containsSub name "Purem") = false := by
  unfold acceleration_plot
  dsimp only
  rw [uniqueList_any]
  by_cases hc : (df.map (fun r => r.func)).any (fun name => containsSub name "Purem") = true
  · rw [if_pos hc, hc]
    simp only [Bool.true_eq_false, iff_false]
    exact accel_loop_no_assert sg _ df _ "Purem is missed!"
  · rw [if_neg hc]
    simp only [Bool.not_eq_true] at hc
    rw [hc]
    simp

end PuremSandbox

namespace PuremSandbox

lemma mem_intersect1d (xs ys : List Int) (z : Int) :
    z ∈ intersect1d xs ys ↔ z ∈ xs ∧ z ∈ ys := by
  unfold intersect1d
  rw [List.mem_insertionSort, List.mem_dedup, List.mem_filter]
  simp

lemma intersect1d_sorted (xs ys : List Int) :
    List.Sorted (fun a b : Int => a ≤ b) (intersect1d xs ys) :=
  List.sorted_insertionSort _ _

lemma intersect1d_nodup (xs ys : List Int) : (intersect1d xs ys).Nodup :=
  (List.perm_insertionSort _ _).nodup_iff.mpr (List.nodup_dedup _)

lemma sizes_nodup_of_const_func (l : List BenchmarkRecord) (c : String)
    (hpairs : (l.map (fun r => (r.size, r.func))).Nodup)
    (hfunc : ∀ r ∈ l, r.func = c) : (l.map (fun r => r.size)).Nodup := by
  have hmap : l.map (fun r => r.size) = (l.map (fun r => (r.size, r.func))).map Prod.fst := by
    rw [List.map_map]
    rfl
  rw [hmap]
  refine List.Nodup.map_on ?_ hpairs
  intro x hx y hy hxy
  obtain ⟨r, hr, hrx⟩ := List.mem_map.mp hx
  obtain ⟨q, hq, hqy⟩ := List.mem_map.mp hy
  have hx2 : x.2 = c := by rw [← hrx]; exact hfunc r hr
  have hy2 : y.2 = c := by rw [← hqy]; exact hfunc q hq
  cases x
  cases y
  simp only [Prod.mk.injEq]
  simp only at hxy hx2 hy2
  exact ⟨hxy, hx2.trans hy2.symm⟩

lemma row_unique {df : List BenchmarkRecord}
    (huniq : (df.map (fun r => (r.size, r.func))).Nodup) :
    ∀ r ∈ df, ∀ q ∈ df, r.size = q.size → r.func = q.func → r = q := by
  intro r hr q hq hsize hfunc
  exact List.inj_on_of_nodup_map huniq hr hq (by rw [Prod.mk.injEq]; exact ⟨hsize, hfunc⟩)

lemma mem_df_purem {df : List BenchmarkRecord} {r : BenchmarkRecord} :
    r ∈ df_purem df ↔ r ∈ df ∧ containsSub r.func "Purem" = true := by
  unfold df_purem sortBySize
  rw [List.mem_insertionSort, List.mem_filter]

lemma mem_df_other {df : List BenchmarkRecord} {g : String} {r : BenchmarkRecord} :
    r ∈ df_other df g ↔ r ∈ df ∧ r.func = g := by
  unfold df_other sortBySize
  rw [List.mem_insertionSort, List.mem_filter]
  simp

lemma df_purem_sorted (df : List BenchmarkRecord) : List.Sorted sizeLE (df_purem df) :=
  List.sorted_insertionSort _ _

lemma df_other_sorted (df : List BenchmarkRecord) (g : String) :
    List.Sorted sizeLE (df_other df g) :=
  List.sorted_insertionSort _ _

lemma df_purem_pairs_nodup {df : List BenchmarkRecord}
    (huniq : (df.map (fun r => (r.size, r.func))).Nodup) :
    ((df_purem df).map (fun r => (r.size, r.func))).Nodup := by
  have hperm := (List.perm_insertionSort sizeLE
    (df.filter (fun r => containsSub r.func "Purem"))).map (fun r => (r.size, r.func))
  refine hperm.nodup_iff.mpr ?_
  exact List.Nodup.sublist (List.Sublist.map _ (List.filter_sublist df)) huniq

lemma df_other_pairs_nodup {df : List BenchmarkRecord} {g : String}
    (huniq : (df.map (fun r => (r.size, r.func))).Nodup) :
    ((df_other df g).map (fun r => (r.size, r.func))).Nodup := by
  have hperm := (List.perm_insertionSort sizeLE
    (df.filter (fun r => r.func == g))).map (fun r => (r.size, r.func))
  refine hperm.nodup_iff.mpr ?_
  exact List.Nodup.sublist (List.Sublist.map _ (List.filter_sublist df)) huniq

lemma df_purem_sizes_nodup {df : List BenchmarkRecord} {b : String}
    (huniq : (df.map (fun r => (r.size, r.func))).Nodup)
    (honly : ∀ r ∈ df, containsSub r.func "Purem" = true → r.func = b) :
    ((df_purem df).map (fun r => r.size)).Nodup := by
  refine sizes_nodup_of_const_func _ b (df_purem_pairs_nodup huniq) ?_
  intro r hr
  obtain ⟨h1, h2⟩ := mem_df_purem.mp hr
  exact honly r h1 h2

lemma df_other_sizes_nodup {df : List BenchmarkRecord} {g : String}
    (huniq : (df.map (fun r => (r.size, r.func))).Nodup) :
    ((df_other df g).map (fun r => r.size)).Nodup := by
  refine sizes_nodup_of_const_func _ g (df_other_pairs_nodup huniq) ?_
  intro r hr
  exact (mem_df_other.mp hr).2

lemma filter_isin_aligned (l : List BenchmarkRecord) (c : List Int)
    (hsort : List.Sorted sizeLE l)
    (hnodup : (l.map (fun r => r.size)).Nodup)
    (hcsort : List.Sorted (fun a b : Int => a ≤ b) c)
    (hcnodup : c.Nodup)
    (hsub : ∀ z ∈ c, z ∈ l.map (fun r => r.size)) :
    (l.filter (fun r => c.contains r.size)).map (fun r => r.size) = c := by
  refine List.eq_of_perm_of_sorted ?_ ?_ hcsort
  · rw [List.perm_ext_iff_of_nodup ?_ hcnodup]
    · intro z
      constructor
      · intro hz
        obtain ⟨r, hr, hrz⟩ := List.mem_map.mp hz
        obtain ⟨hrl, hcont⟩ := List.mem_filter.mp hr
        rw [← hrz]
        simpa using hcont
      · intro hz
        obtain ⟨r, hr, hrz⟩ := List.mem_map.mp (hsub z hz)
        refine List.mem_map.mpr ⟨r, List.mem_filter.mpr ⟨hr, ?_⟩, hrz⟩
        simpa using hrz ▸ hz
    · exact List.Nodup.sublist (List.Sublist.map _ (List.filter_sublist l)) hnodup
  · refine List.Pairwise.map _ ?_ (hsort.filter _)
    intro a b hab
    exact hab

end PuremSandbox

namespace PuremSandbox

lemma common_sizes_sorted (dp df : List BenchmarkRecord) (g : String) :
    List.Sorted (fun a b : Int => a ≤ b) (common_sizes dp df g) :=
  intersect1d_sorted _ _

lemma common_sizes_nodup (dp df : List BenchmarkRecord) (g : String) :
    (common_sizes dp df g).Nodup :=
  intersect1d_nodup _ _

lemma mem_common_sizes {dp df : List BenchmarkRecord} {g : String} {z : Int} :
    z ∈ common_sizes dp df g ↔
      z ∈ dp.map (fun r => r.size) ∧ z ∈ (df_other df g).map (fun r => r.size) :=
  mem_intersect1d _ _ z

lemma purem_filter_aligned {df : List BenchmarkRecord} {b : String} (g : String)
    (huniq : (df.map (fun r => (r.size, r.func))).Nodup)
    (honly : ∀ r ∈ df, containsSub r.func "Purem" = true → r.func = b) :
    ((df_purem df).filter
        (fun r => (common_sizes (df_purem df) df g).contains r.size)).map (fun r => r.size) =
      common_sizes (df_purem df) df g := by
  refine filter_isin_aligned _ _ (df_purem_sorted df) (df_purem_sizes_nodup huniq honly)
    (common_sizes_sorted _ _ _) (common_sizes_nodup _ _ _) ?_
  intro z hz
  exact (mem_common_sizes.mp hz).1

lemma other_filter_aligned {df : List BenchmarkRecord} (dp : List BenchmarkRecord) (g : String)
    (huniq : (df.map (fun r => (r.size, r.func))).Nodup) :
    ((df_other df g).filter
        (fun r => (common_sizes dp df g).contains r.size)).map (fun r => r.size) =
      common_sizes dp df g := by
  refine filter_isin_aligned _ _ (df_other_sorted df g) (df_other_sizes_nodup huniq)
    (common_sizes_sorted _ _ _) (common_sizes_nodup _ _ _) ?_
  intro z hz
  exact (mem_common_sizes.mp hz).2

lemma purem_ops_length {df : List BenchmarkRecord} {b : String} (g : String)
    (huniq : (df.map (fun r => (r.size, r.func))).Nodup)
    (honly : ∀ r ∈ df, containsSub r.func "Purem" = true → r.func = b) :
    (purem_ops (df_purem df) df g).length = (common_sizes (df_purem df) df g).length := by
  unfold purem_ops
  rw [List.length_map]
  have h := congrArg List.length (purem_filter_aligned g huniq honly)
  rwa [List.length_map] at h

lemma other_ops_length {df : List BenchmarkRecord} (dp : List BenchmarkRecord) (g : String)
    (huniq : (df.map (fun r => (r.size, r.func))).Nodup) :
    (other_ops dp df g).length = (common_sizes dp df g).length := by
  unfold other_ops
  rw [List.length_map]
  have h := congrArg List.length (other_filter_aligned dp g huniq)
  rwa [List.length_map] at h

lemma competitor_series_none (sg : List Rat → Except PyErr (List Rat))
    (dp df : List BenchmarkRecord) (g : String)
    (hemp : (common_sizes dp df g).isEmpty = true) :
    competitor_series sg dp df g = .ok none := by
  unfold competitor_series
  rw [if_pos hemp]

lemma competitor_series_some {df : List BenchmarkRecord} {b : String}
    (sg : List Rat → Except PyErr (List Rat)) (g : String)
    (hsgLen : ∀ y, (smooth_acceleration sg y).fst.length = y.length)
    (huniq : (df.map (fun r => (r.size, r.func))).Nodup)
    (honly : ∀ r ∈ df, containsSub r.func "Purem" = true → r.func = b)
    (hne : (common_sizes (df_purem df) df g).isEmpty = false) :
    competitor_series sg (df_purem df) df g =
      .ok (some
        { func := g
          sizes := common_sizes (df_purem df) df g
          accel := List.zipWith (fun x y => x / y) (purem_ops (df_purem df) df g)
            (other_ops (df_purem df) df g)
          accel_smooth := (smooth_acceleration sg (List.zipWith (fun x y => x / y)
            (purem_ops (df_purem df) df g) (other_ops (df_purem df) df g))).fst
          warned := (smooth_acceleration sg (List.zipWith (fun x y => x / y)
            (purem_ops (df_purem df) df g) (other_ops (df_purem df) df g))).snd }) := by
  have hlenP := purem_ops_length g huniq honly
  have hlenO := other_ops_length (df_purem df) g huniq
  have hlenPO : (purem_ops (df_purem df) df g).length = (other_ops (df_purem df) df g).length :=
    hlenP.trans hlenO.symm
  have hnp : npDiv (purem_ops (df_purem df) df g) (other_ops (df_purem df) df g) =
      .ok (List.zipWith (fun x y => x / y) (purem_ops (df_purem df) df g)
        (other_ops (df_purem df) df g)) := by
    unfold npDiv
    rw [if_pos hlenPO]
  have hguard : (common_sizes (df_purem df) df g).length =
      (smooth_acceleration sg (List.zipWith (fun x y => x / y) (purem_ops (df_purem df) df g)
        (other_ops (df_purem df) df g))).fst.length := by
    rw [hsgLen, List.length_zipWith, hlenP, hlenO]
    simp
  unfold competitor_series
  rw [if_neg (by simp [hne]), hnp]
  dsimp only
  rw [if_pos hguard]

end PuremSandbox

namespace PuremSandbox

lemma accel_loop_spec (sg : List Rat → Except PyErr (List Rat))
    (dp df : List BenchmarkRecord)
    (hok : ∀ h, ∃ o, competitor_series sg dp df h = .ok o) :
    ∀ gs, ∃ plots, accel_loop sg dp df gs = .ok plots ∧
      (∀ s ∈ plots, ∃ h ∈ gs, containsSub h "Purem" = false ∧
        competitor_series sg dp df h = .ok (some s)) ∧
      (∀ h ∈ gs, containsSub h "Purem" = false →
        ∀ s, competitor_series sg dp df h = .ok (some s) → s ∈ plots) := by
  intro gs
  induction gs with
  | nil => exact ⟨[], rfl, by simp, by simp⟩
  | cons g rest ih =>
    obtain ⟨plots, hp, hforward, hback⟩ := ih
    by_cases hg : containsSub g "Purem" = true
    · refine ⟨plots, ?_, ?_, ?_⟩
      · rw [accel_loop, if_pos hg]
        exact hp
      · intro s hs
        obtain ⟨h, hh, hhf, hcs⟩ := hforward s hs
        exact ⟨h, List.mem_cons_of_mem g hh, hhf, hcs⟩
      · intro h hh hhf s hcs
        rcases List.mem_cons.mp hh with h1 | h1
        · rw [h1] at hhf
          rw [hhf] at hg
          cases hg
        · exact hback h h1 hhf s hcs
    · rw [Bool.not_eq_true] at hg
      obtain ⟨o, ho⟩ := hok g
      cases o with
      | none =>
        refine ⟨plots, ?_, ?_, ?_⟩
        · rw [accel_loop, if_neg (by rw [hg]; exact Bool.false_ne_true)]
          simp only [Bind.bind, Except.bind, ho, hp]
        · intro s hs
          obtain ⟨h, hh, hhf, hcs⟩ := hforward s hs
          exact ⟨h, List.mem_cons_of_mem g hh, hhf, hcs⟩
        · intro h hh hhf s hcs
          rcases List.mem_cons.mp hh with h1 | h1
          · rw [h1] at hcs
            rw [hcs] at ho
            injection ho with h2
            cases h2
          · exact hback h h1 hhf s hcs
      | some a =>
        refine ⟨a :: plots, ?_, ?_, ?_⟩
        · rw [accel_loop, if_neg (by rw [hg]; exact Bool.false_ne_true)]
          simp only [Bind.bind, Except.bind, ho, hp]
        · intro s hs
          rcases List.mem_cons.mp hs with h1 | h1
          · exact ⟨g, List.mem_cons_self g rest, hg, h1 ▸ ho⟩
          · obtain ⟨h, hh, hhf, hcs⟩ := hforward s h1
            exact ⟨h, List.mem_cons_of_mem g hh, hhf, hcs⟩
        · intro h hh hhf s hcs
          rcases List.mem_cons.mp hh with h1 | h1
          · rw [h1] at hcs
            rw [hcs] at ho
            injection ho with h2
            injection h2 with h3
            exact h3 ▸ List.mem_cons_self a plots
          · exact List.mem_cons_of_mem a (hback h h1 hhf s hcs)

lemma purem_filter_eq {df : List BenchmarkRecord} {b : String}
    (hb : containsSub b "Purem" = true)
    (honly : ∀ r ∈ df, containsSub r.func "Purem" = true → r.func = b) :
    df.filter (fun r => containsSub r.func "Purem") = df.filter (fun r => r.func == b) := by
  refine List.filter_congr ?_
  intro r hr
  by_cases hc : containsSub r.func "Purem" = true
  · rw [hc]
    have := honly r hr hc
    simp [this]
  · rw [Bool.not_eq_true] at hc
    rw [hc]
    by_cases hrb : r.func = b
    · rw [hrb] at hc
      rw [hb] at hc
      cases hc
    · simp [hrb]

lemma mem_purem_sizes {df : List BenchmarkRecord} {b : String} {z : Int}
    (hb : containsSub b "Purem" = true)
    (honly : ∀ r ∈ df, containsSub r.func "Purem" = true → r.func = b) :
    z ∈ (df_purem df).map (fun r => r.size) ↔
      z ∈ (df.filter (fun r => r.func == b)).map (fun r => r.size) := by
  constructor
  · intro hz
    obtain ⟨r, hr, hrz⟩ := List.mem_map.mp hz
    obtain ⟨hrl, hrc⟩ := mem_df_purem.mp hr
    refine List.mem_map.mpr ⟨r, List.mem_filter.mpr ⟨hrl, ?_⟩, hrz⟩
    simp [honly r hrl hrc]
  · intro hz
    obtain ⟨r, hr, hrz⟩ := List.mem_map.mp hz
    obtain ⟨hrl, hrb⟩ := List.mem_filter.mp hr
    have hrb2 : r.func = b := by simpa using hrb
    refine List.mem_map.mpr ⟨r, mem_df_purem.mpr ⟨hrl, ?_⟩, hrz⟩
    rw [hrb2]
    exact hb

lemma mem_other_sizes {df : List BenchmarkRecord} {g : String} {z : Int} :
    z ∈ (df_other df g).map (fun r => r.size) ↔
      z ∈ (df.filter (fun r => r.func == g)).map (fun r => r.size) := by
  constructor
  · intro hz
    obtain ⟨r, hr, hrz⟩ := List.mem_map.mp hz
    obtain ⟨hrl, hrg⟩ := mem_df_other.mp hr
    exact List.mem_map.mpr ⟨r, List.mem_filter.mpr ⟨hrl, by simp [hrg]⟩, hrz⟩
  · intro hz
    obtain ⟨r, hr, hrz⟩ := List.mem_map.mp hz
    obtain ⟨hrl, hrg⟩ := List.mem_filter.mp hr
    exact List.mem_map.mpr ⟨r, mem_df_other.mpr ⟨hrl, by simpa using hrg⟩, hrz⟩

lemma ops_at_index (l : List BenchmarkRecord) (c : List Int) (i : Nat)
    (halign : (l.filter (fun r => c.contains r.size)).map (fun r => r.size) = c)
    (hi : i < c.length) :
    ∃ rr ∈ l, rr.size = c.getD i 0 ∧
      ((l.filter (fun r => c.contains r.size)).map (fun r => r.ops)).getD i 0 = rr.ops := by
  have hlen : (l.filter (fun r => c.contains r.size)).length = c.length := by
    have h := congrArg List.length halign
    rwa [List.length_map] at h
  have hif : i < (l.filter (fun r => c.contains r.size)).length := by omega
  refine ⟨(l.filter (fun r => c.contains r.size))[i], ?_, ?_, ?_⟩
  · exact List.mem_of_mem_filter (List.getElem_mem hif)
  · have h1 : ((l.filter (fun r => c.contains r.size)).map (fun r => r.size)).getD i 0 =
        c.getD i 0 := by rw [halign]
    have h2 : i < ((l.filter (fun r => c.contains r.size)).map (fun r => r.size)).length := by
      rw [List.length_map]
      omega
    rw [List.getD_eq_getElem _ _ h2, List.getElem_map] at h1
    exact h1
  · have h2 : i < ((l.filter (fun r => c.contains r.size)).map (fun r => r.ops)).length := by
      rw [List.length_map]
      omega
    rw [List.getD_eq_getElem _ _ h2, List.getElem_map]

end PuremSandbox

namespace PuremSandbox

lemma smooth_scipy_length (y : List Rat) :
    (smooth_acceleration scipy_savgol y).fst.length = y.length := by
  unfold smooth_acceleration
  by_cases h5 : 5 ≤ y.length
  · rw [if_pos h5]
    simp [scipy_savgol, savgol_length]
  · rw [if_neg h5]

lemma competitor_series_some_inv {df : List BenchmarkRecord} {b : String}
    (sg : List Rat → Except PyErr (List Rat)) (g : String) {s : AccelSeries}
    (hsgLen : ∀ y, (smooth_acceleration sg y).fst.length = y.length)
    (huniq : (df.map (fun r => (r.size, r.func))).Nodup)
    (honly : ∀ r ∈ df, containsSub r.func "Purem" = true → r.func = b)
    (hcs : competitor_series sg (df_purem df) df g = .ok (some s)) :
    (common_sizes (df_purem df) df g).isEmpty = false ∧
    s = { func := g
          sizes := common_sizes (df_purem df) df g
          accel := List.zipWith (fun x y => x / y) (purem_ops (df_purem df) df g)
            (other_ops (df_purem df) df g)
          accel_smooth := (smooth_acceleration sg (List.zipWith (fun x y => x / y)
            (purem_ops (df_purem df) df g) (other_ops (df_purem df) df g))).fst
          warned := (smooth_acceleration sg (List.zipWith (fun x y => x / y)
            (purem_ops (df_purem df) df g) (other_ops (df_purem df) df g))).snd } := by
  by_cases hemp : (common_sizes (df_purem df) df g).isEmpty = true
  · rw [competitor_series_none sg _ _ _ hemp] at hcs
    injection hcs with h1
    cases h1
  · have hf : (common_sizes (df_purem df) df g).isEmpty = false := by
      simpa using hemp
    rw [competitor_series_some sg g hsgLen huniq honly hf] at hcs
    injection hcs with h1
    injection h1 with h2
    exact ⟨hf, h2.symm⟩

lemma accel_value_at {df : List BenchmarkRecord} {b : String} (g : String) (i : Nat)
    (huniq : (df.map (fun r => (r.size, r.func))).Nodup)
    (honly : ∀ r ∈ df, containsSub r.func "Purem" = true → r.func = b)
    (hi : i < (common_sizes (df_purem df) df g).length) :
    ∀ r ∈ df, r.func = b → ∀ q ∈ df, q.func = g →
      r.size = (common_sizes (df_purem df) df g).getD i 0 →
      q.size = (common_sizes (df_purem df) df g).getD i 0 →
      (List.zipWith (fun x y => x / y) (purem_ops (df_purem df) df g)
        (other_ops (df_purem df) df g)).getD i 0 = r.ops / q.ops := by
  intro r hr hrb q hq hqg hrsize hqsize
  obtain ⟨rr, hrr_mem, hrr_size, hrr_ops⟩ :=
    ops_at_index (df_purem df) (common_sizes (df_purem df) df g) i
      (purem_filter_aligned g huniq honly) hi
  obtain ⟨qq, hqq_mem, hqq_size, hqq_ops⟩ :=
    ops_at_index (df_other df g) (common_sizes (df_purem df) df g) i
      (other_filter_aligned (df_purem df) g huniq) hi
  obtain ⟨hrr_df, hrr_cont⟩ := mem_df_purem.mp hrr_mem
  have hrr_func : rr.func = b := honly rr hrr_df hrr_cont
  obtain ⟨hqq_df, hqq_func⟩ := mem_df_other.mp hqq_mem
  have hreq : r = rr := row_unique huniq r hr rr hrr_df
    (by rw [hrsize, hrr_size]) (by rw [hrb, hrr_func])
  have hqeq : q = qq := row_unique huniq q hq qq hqq_df
    (by rw [hqsize, hqq_size]) (by rw [hqg, hqq_func])
  have hlP := purem_ops_length g huniq honly
  have hlO := other_ops_length (df_purem df) g huniq
  have hzl : (List.zipWith (fun x y => x / y) (purem_ops (df_purem df) df g)
      (other_ops (df_purem df) df g)).length = (common_sizes (df_purem df) df g).length := by
    rw [List.length_zipWith, hlP, hlO]
    simp
  have hiz : i < (List.zipWith (fun x y => x / y) (purem_ops (df_purem df) df g)
      (other_ops (df_purem df) df g)).length := by omega
  rw [List.getD_eq_getElem _ _ hiz, List.getElem_zipWith]
  have hiP : i < (purem_ops (df_purem df) df g).length := by omega
  have hiO : i < (other_ops (df_purem df) df g).length := by omega
  have hPi : (purem_ops (df_purem df) df g)[i] = rr.ops := by
    rw [← List.getD_eq_getElem _ 0 hiP]
    exact hrr_ops
  have hOi : (other_ops (df_purem df) df g)[i] = qq.ops := by
    rw [← List.getD_eq_getElem _ 0 hiO]
    exact hqq_ops
  rw [hPi, hOi, hreq, hqeq]

end PuremSandbox

namespace PuremSandbox

/-- C1: under unique (size, function) pairs and a single baseline name (the
one containing "Purem", present in the table), for every other function g in
the table: a series for g is plotted iff the baseline and g share a size; a
plotted series for g is indexed by exactly the shared sizes in strictly
ascending order; and at each index the unsmoothed ratio equals the
baseline's throughput divided by g's throughput at that size. -/
theorem acceleration_series_spec (df : List BenchmarkRecord) (b g : String)
    (huniq : (df.map (fun r => (r.size, r.func))).Nodup)
    (hb : containsSub b "Purem" = true)
    (honly : ∀ r ∈ df, containsSub r.func "Purem" = true → r.func = b)
    (hbmem : b ∈ df.map (fun r => r.func))
    (hgmem : g ∈ df.map (fun r => r.func))
    (hg : containsSub g "Purem" = false) :
    ∃ plots, acceleration_plot scipy_savgol df = .ok plots ∧
      ((∃ s ∈ plots, s.func = g) ↔
        ∃ z, z ∈ (df.filter (fun r => r.func == b)).map (fun r => r.size) ∧
          z ∈ (df.filter (fun r => r.func == g)).map (fun r => r.size)) ∧
      (∀ s ∈ plots, s.func = g →
        List.Sorted (fun x y : Int => x ≤ y) s.sizes ∧ s.sizes.Nodup ∧
        (∀ z, z ∈ s.sizes ↔
          (z ∈ (df.filter (fun r => r.func == b)).map (fun r => r.size) ∧
           z ∈ (df.filter (fun r => r.func == g)).map (fun r => r.size))) ∧
        s.accel.length = s.sizes.length ∧
        (∀ i, i < s.sizes.length → ∀ r ∈ df, r.func = b → ∀ q ∈ df, q.func = g →
          r.size = s.sizes.getD i 0 → q.size = s.sizes.getD i 0 →
          s.accel.getD i 0 = r.ops / q.ops)) := by
  have hok : ∀ h, ∃ o, competitor_series scipy_savgol (df_purem df) df h = .ok o := by
    intro h
    by_cases hemp : (common_sizes (df_purem df) df h).isEmpty = true
    · exact ⟨none, competitor_series_none scipy_savgol _ _ _ hemp⟩
    · exact ⟨some _, competitor_series_some scipy_savgol h smooth_scipy_length huniq honly
        (by simpa using hemp)⟩
  obtain ⟨plots, hp, hforward, hback⟩ := accel_loop_spec scipy_savgol (df_purem df) df hok
    (uniqueList (df.map (fun r => r.func)))
  refine ⟨plots, ?_, ?_, ?_⟩
  · unfold acceleration_plot
    dsimp only
    rw [if_pos (by rw [uniqueList_any]; exact List.any_eq_true.mpr ⟨b, hbmem, hb⟩)]
    exact hp
  · constructor
    · rintro ⟨s, hs, hsg⟩
      obtain ⟨h, hh, hhf, hcs⟩ := hforward s hs
      obtain ⟨hne, hseq⟩ := competitor_series_some_inv scipy_savgol h
        smooth_scipy_length huniq honly hcs
      have hfunc : s.func = h := by rw [hseq]
      rw [hfunc] at hsg
      subst hsg
      cases hc : common_sizes (df_purem df) df h with
      | nil => rw [hc] at hne; cases hne
      | cons z zs =>
        have hz : z ∈ common_sizes (df_purem df) df h := by
          rw [hc]
          exact List.mem_cons_self z zs
        obtain ⟨hz1, hz2⟩ := mem_common_sizes.mp hz
        exact ⟨z, (mem_purem_sizes hb honly).mp hz1, mem_other_sizes.mp hz2⟩
    · rintro ⟨z, hzb, hzg⟩
      have hz : z ∈ common_sizes (df_purem df) df g :=
        mem_common_sizes.mpr ⟨(mem_purem_sizes hb honly).mpr hzb, mem_other_sizes.mpr hzg⟩
      have hne : (common_sizes (df_purem df) df g).isEmpty = false := by
        cases hc : common_sizes (df_purem df) df g with
        | nil => rw [hc] at hz; cases hz
        | cons w ws => rfl
      have hcs := competitor_series_some scipy_savgol g smooth_scipy_length huniq honly hne
      have hmem := hback g ((mem_uniqueList g _).mpr hgmem) hg _ hcs
      exact ⟨_, hmem, rfl⟩
  · intro s hs hsg
    obtain ⟨h, hh, hhf, hcs⟩ := hforward s hs
    obtain ⟨hne, hseq⟩ := competitor_series_some_inv scipy_savgol h
      smooth_scipy_length huniq honly hcs
    have hfunc : s.func = h := by rw [hseq]
    have hhg : h = g := by rw [← hfunc, hsg]
    subst hhg
    have hs_sizes : s.sizes = common_sizes (df_purem df) df h := by rw [hseq]
    have hs_accel : s.accel = List.zipWith (fun x y => x / y) (purem_ops (df_purem df) df h)
        (other_ops (df_purem df) df h) := by rw [hseq]
    refine ⟨?_, ?_, ?_, ?_, ?_⟩
    · rw [hs_sizes]
      exact common_sizes_sorted _ _ _
    · rw [hs_sizes]
      exact common_sizes_nodup _ _ _
    · intro z
      rw [hs_sizes]
      exact mem_common_sizes.trans (and_congr (mem_purem_sizes hb honly) mem_other_sizes)
    · rw [hs_accel, hs_sizes, List.length_zipWith, purem_ops_length h huniq honly,
        other_ops_length (df_purem df) h huniq]
      simp
    · intro i hi r hr hrb q hq hqg hrsize hqsize
      rw [hs_sizes] at hi hrsize hqsize
      rw [hs_accel]
      exact accel_value_at h i huniq honly hi r hr hrb q hq hqg hrsize hqsize

end PuremSandbox

namespace PuremSandbox

theorem acceleration_series_spec_witness :
    (demoDf.map (fun r => (r.size, r.func))).Nodup ∧
    containsSub "Softmax: Purem" "Purem" = true ∧
    (∀ r ∈ demoDf, containsSub r.func "Purem" = true → r.func = "Softmax: Purem") ∧
    "Softmax: Purem" ∈ demoDf.map (fun r => r.func) ∧
    "Softmax: NumPy" ∈ demoDf.map (fun r => r.func) ∧
    containsSub "Softmax: NumPy" "Purem" = false ∧
    (∃ plots, acceleration_plot scipy_savgol demoDf = .ok plots ∧
      ((∃ s ∈ plots, s.func = "Softmax: NumPy") ↔
        ∃ z, z ∈ (demoDf.filter (fun r => r.func == "Softmax: Purem")).map (fun r => r.size) ∧
          z ∈ (demoDf.filter (fun r => r.func == "Softmax: NumPy")).map (fun r => r.size)) ∧
      (∀ s ∈ plots, s.func = "Softmax: NumPy" →
        List.Sorted (fun x y : Int => x ≤ y) s.sizes ∧ s.sizes.Nodup ∧
        (∀ z, z ∈ s.sizes ↔
          (z ∈ (demoDf.filter (fun r => r.func == "Softmax: Purem")).map (fun r => r.size) ∧
           z ∈ (demoDf.filter (fun r => r.func == "Softmax: NumPy")).map (fun r => r.size))) ∧
        s.accel.length = s.sizes.length ∧
        (∀ i, i < s.sizes.length → ∀ r ∈ demoDf, r.func = "Softmax: Purem" →
          ∀ q ∈ demoDf, q.func = "Softmax: NumPy" →
          r.size = s.sizes.getD i 0 → q.size = s.sizes.getD i 0 →
          s.accel.getD i 0 = r.ops / q.ops))) :=
  ⟨by decide, by decide, by decide, by decide, by decide, by decide,
    acceleration_series_spec demoDf "Softmax: Purem" "Softmax: NumPy"
      (by decide) (by decide) (by decide) (by decide) (by decide) (by decide)⟩

end PuremSandbox
